import Mathlib

/-!
Verification of the two algorithmic components of this repository:

* the nested-structure codec `_flatten` / `_unflatten` / `unflatten`
  (`pennylane/utils.py`), and
* the interferometer mesh scheduler `Interferometer`
  (`pennylane/templates/layers.py`).

The codec works on arbitrarily nested Python values built from numbers,
symbolic `Variable` placeholders, numpy arrays, lists and tuples.  We embed
such values as the mutual inductive types `PyTree` / `PyForest` below.
Scalar values (numbers and `Variable`s) are opaque to the codec, so a number
is represented by an integer tag and a `Variable` by its index; a numpy
dtype is represented by `Dtype` (an opaque numeric dtype code, or the fully
generic `object` dtype).  Casting a scalar with `np.array(v, dtype=d)` is
modelled as attaching the dtype tag `d` (numpy's internal value conversion
is not modelled; the codec only decides which dtype tag it passes).
Python exceptions are modelled with `Except`.
-/

namespace Penny

/-- A scalar leaf value: a plain number, or a symbolic `Variable`
placeholder identified by an index. -/
inductive Val where
| num (n : Int)
| var (i : Nat)
deriving DecidableEq

/-- A numpy element dtype: an opaque concrete numeric dtype (tagged by a
code), or the fully generic `object` dtype used for heterogeneous data. -/
inductive Dtype where
| numeric (code : Nat)
| object
deriving DecidableEq

mutual
/-- A nested Python parameter value as handled by `_flatten`/`_unflatten`:
a bare scalar, a rank-0 numpy array (`np.array(4)`-style, wrapping one
scalar), a numpy array of rank at least 1 (its `elems` are the axis-0
slices), a Python list, or a tuple. -/
inductive PyTree where
| scalar (v : Val)
| scalarArr (d : Dtype) (v : Val)
| ndarr (d : Dtype) (elems : PyForest)
| list (elems : PyForest)
| tup (elems : PyForest)

/-- A sequence of `PyTree`s (the direct elements of a container). -/
inductive PyForest where
| nil
| cons (head : PyTree) (tail : PyForest)
end

end Penny

deriving instance DecidableEq for Penny.PyTree

deriving instance DecidableEq for Penny.PyForest

deriving instance DecidableEq for Except

namespace Penny

/-- Number of direct elements of a container (`len(model)` /
`model.shape[0]`). -/
def PyForest.length : PyForest → Nat
| .nil => 0
| .cons _ t => t.length + 1

/-- The `isinstance(res, Variable)` test used by `Unflattener.gen`
(utils.py line 115): a restored element is a `Variable` exactly when it is
a bare symbolic scalar. -/
def PyTree.isVariable : PyTree → Bool
| .scalar (.var _) => true
| _ => false

/-- Whether any direct element of a forest is a bare `Variable`. -/
def PyForest.anyVariable : PyForest → Bool
| .nil => false
| .cons h t => h.isVariable || t.anyVariable

mutual
/-- Embedding of `_flatten` (utils.py lines 46-63): depth-first iteration
over a nested structure.  A numpy array is iterated through `x.flat`, i.e.
through all its scalars in row-major order, which coincides with
depth-first iteration over its axis-0 slices; other iterables are iterated
element by element; scalars are yielded as leaves. -/
def flatten : PyTree → List Val
| .scalar v => [v]
| .scalarArr _ v => [v]
| .ndarr _ es => flattenForest es
| .list es => flattenForest es
| .tup es => flattenForest es

/-- Depth-first flattening of the elements of a container, in order. -/
def flattenForest : PyForest → List Val
| .nil => []
| .cons h t => flatten h ++ flattenForest t
end

/-- Total number of scalar leaves of a model (the length of its flattened
form). -/
def leafCount (m : PyTree) : Nat := (flatten m).length

/-- Exceptions raised by the codec: `IndexError` (indexing an exhausted
flat sequence, utils.py line 80/88), `ValueError` (`unflatten`, line 148),
and `TypeError` (line 137, unreachable for representable models). -/
inductive CodecErr where
| indexError
| valueError
| typeError
deriving DecidableEq

mutual
/-- Embedding of `_unflatten(flat, model)` (utils.py lines 66-137).

* A `Number` or `Variable` model consumes one element: `flat[0], flat[1:]`
  (line 80); `flat[0]` on an empty sequence raises `IndexError`.
* For an iterable model, `l = model.shape[0] if model.shape != () else 0`
  for arrays, `len(model)` otherwise (lines 82-85).  When `l == 0`:
  an array model returns `np.array(flat[0], dtype=model.dtype)` together
  with `flat[1:]` (line 88) — note this branch is taken both by rank-0
  arrays and by zero-length arrays of rank 1, and that it applies the
  model's dtype with no promotion; any other zero-length iterable returns
  the empty tuple `()` and consumes nothing (line 90).
* Otherwise the `Unflattener` class (lines 106-135) restores every element
  against the running tail and rebuilds a container of the model's kind;
  for arrays the element dtype is `object` if any directly restored
  element was a `Variable`, else `model.dtype` (lines 122-126). -/
def unflattenAux : List Val → PyTree → Except CodecErr (PyTree × List Val)
| flat, .scalar _ =>
    match flat with
    | [] => .error .indexError
    | v :: rest => .ok (.scalar v, rest)
| flat, .scalarArr d _ =>
    match flat with
    | [] => .error .indexError
    | v :: rest => .ok (.scalarArr d v, rest)
| flat, .ndarr d .nil =>
    match flat with
    | [] => .error .indexError
    | v :: rest => .ok (.scalarArr d v, rest)
| flat, .ndarr d (.cons h t) =>
    match unflattenAuxList flat (.cons h t) with
    | .error e => .error e
    | .ok (results, enc, rest) =>
        .ok (.ndarr (if enc then .object else d) results, rest)
| flat, .list .nil => .ok (.tup .nil, flat)
| flat, .list (.cons h t) =>
    match unflattenAuxList flat (.cons h t) with
    | .error e => .error e
    | .ok (results, _, rest) => .ok (.list results, rest)
| flat, .tup .nil => .ok (.tup .nil, flat)
| flat, .tup (.cons h t) =>
    match unflattenAuxList flat (.cons h t) with
    | .error e => .error e
    | .ok (results, _, rest) => .ok (.tup results, rest)

/-- Embedding of `Unflattener.gen` (utils.py lines 112-117): restore each
element of the model against the running tail, also accumulating the
`encountered_variable` flag (whether any directly restored element is a
`Variable`). -/
def unflattenAuxList : List Val → PyForest → Except CodecErr (PyForest × Bool × List Val)
| flat, .nil => .ok (.nil, false, flat)
| flat, .cons h t =>
    match unflattenAux flat h with
    | .error e => .error e
    | .ok (res, rest) =>
        match unflattenAuxList rest t with
        | .error e => .error e
        | .ok (results, enc, tail) =>
            .ok (.cons res results, res.isVariable || enc, tail)
end

/-- Embedding of the top-level `unflatten(flat, model)` (utils.py lines
140-149): run `_unflatten` (the `np.asarray` coercion is the identity on an
already flat sequence) and raise `ValueError` when the returned tail is
non-empty. -/
def unflatten (flat : List Val) (model : PyTree) : Except CodecErr PyTree :=
  match unflattenAux flat model with
  | .error e => .error e
  | .ok (res, tail) => if tail.length ≠ 0 then .error .valueError else .ok res

mutual
/-- Number of elements `_unflatten` consumes from the flat sequence on a
successful run: one per scalar leaf, but also one for each zero-length
array (rank-0 or empty), which takes the `l == 0` array branch. -/
def demand : PyTree → Nat
| .scalar _ => 1
| .scalarArr _ _ => 1
| .ndarr _ .nil => 1
| .ndarr _ (.cons h t) => demandForest (.cons h t)
| .list es => demandForest es
| .tup es => demandForest es

/-- Total consumption of a sequence of models. -/
def demandForest : PyForest → Nat
| .nil => 0
| .cons h t => demand h + demandForest t
end

mutual
/-- No zero-length array of rank at least 1 occurs anywhere in the model. -/
def noEmptyArr : PyTree → Bool
| .scalar _ => true
| .scalarArr _ _ => true
| .ndarr _ .nil => false
| .ndarr _ (.cons h t) => noEmptyArrForest (.cons h t)
| .list es => noEmptyArrForest es
| .tup es => noEmptyArrForest es

/-- `noEmptyArr` for every element of a forest. -/
def noEmptyArrForest : PyForest → Bool
| .nil => true
| .cons h t => noEmptyArr h && noEmptyArrForest t
end

mutual
/-- No zero-length Python list occurs anywhere in the model (empty tuples
are fine: they are restored as themselves). -/
def noEmptyList : PyTree → Bool
| .scalar _ => true
| .scalarArr _ _ => true
| .ndarr _ es => noEmptyListForest es
| .list .nil => false
| .list (.cons h t) => noEmptyListForest (.cons h t)
| .tup es => noEmptyListForest es

/-- `noEmptyList` for every element of a forest. -/
def noEmptyListForest : PyForest → Bool
| .nil => true
| .cons h t => noEmptyList h && noEmptyListForest t
end

mutual
/-- Dtype consistency of a model: a numpy array that directly contains a
bare `Variable` element must have the `object` dtype (a numeric buffer
cannot hold placeholder objects). -/
def wfDtype : PyTree → Bool
| .scalar _ => true
| .scalarArr _ _ => true
| .ndarr d es => (!es.anyVariable || (d == .object)) && wfDtypeForest es
| .list es => wfDtypeForest es
| .tup es => wfDtypeForest es

/-- `wfDtype` for every element of a forest. -/
def wfDtypeForest : PyForest → Bool
| .nil => true
| .cons h t => wfDtype h && wfDtypeForest t
end

/-- A model is good when it is dtype-consistent and contains no zero-length
list and no zero-length rank-at-least-1 array. -/
def goodModel (m : PyTree) : Bool := wfDtype m && noEmptyArr m && noEmptyList m

/-!
Embedding of the mesh scheduler `Interferometer(theta, phi, varphi, wires,
mesh, beamsplitter)` (`pennylane/templates/layers.py`, lines 219-345).

The angle entries of `theta`, `phi`, `varphi` are opaque values, modelled
as integers.  The `mesh` and `beamsplitter` keyword arguments are either
strings or symbolic `Variable` placeholders (`Cfg`).  The `wires` argument
is modelled as the list `w` of wire labels the Python code derives from it
(the scalar-to-singleton wrapping of a non-`Sequence` argument is done by
the caller of the embedding).  Each `Rotation`/`Beamsplitter` call appends
one entry to the emitted schedule; Python's `IndexError` on an
out-of-range angle-array access and the `QuantumFunctionError` raised for
symbolic configuration are modelled through `Except`.
-/

/-- A configuration argument (`mesh` or `beamsplitter`): a concrete string
or a symbolic `Variable` placeholder. -/
inductive Cfg where
| str (s : String)
| symb (i : Nat)
deriving DecidableEq

/-- Whether a configuration argument is a `Variable` (`isinstance(...,
Variable)`, layers.py lines 295 and 299). -/
def Cfg.isVariable : Cfg → Bool
| .symb _ => true
| .str _ => false

/-- One emitted operation: a single-channel `Rotation(angle, wires=[wire])`
or a two-channel `Beamsplitter(theta, phi, wires=[w1, w2])`. -/
inductive Op where
| rot (angle : Int) (wire : Nat)
| bs (theta phi : Int) (w1 w2 : Nat)
deriving DecidableEq

/-- Whether an operation is a two-channel `Beamsplitter` coupling. -/
def Op.isBS : Op → Bool
| .bs _ _ _ _ => true
| .rot _ _ => false

/-- The transmittivity angle of a coupling operation, if any. -/
def Op.bsTheta : Op → Option Int
| .bs t _ _ _ => some t
| .rot _ _ => none

/-- Errors raised by the scheduler: `QuantumFunctionError` with its message
(layers.py lines 296 and 300) or `IndexError` from an out-of-range access
into an angle array. -/
inductive SchedErr where
| qfe (msg : String)
| indexError
deriving DecidableEq

/-- The message of the `QuantumFunctionError` raised for a symbolic
`beamsplitter` argument (layers.py lines 296-297). -/
def beamsplitterMsg : String :=
  "The beamsplitter parameter influences the circuit architecture and can not be passed as a QNode parameter."

/-- The message of the `QuantumFunctionError` raised for a symbolic `mesh`
argument (layers.py lines 300-301). -/
def meshMsg : String :=
  "The mesh parameter influences the circuit architecture and can not be passed as a QNode parameter."

/-- Rectangular mesh, one layer (layers.py lines 320-323): the pair
indices `k` of `enumerate(zip(w[:-1], w[1:]))` (so `k < N - 1`) kept by the
test `(l+k) % 2 != 1`. -/
def rectLayerKs (N l : Nat) : List Nat :=
  (List.range (N - 1)).filter (fun k => (l + k) % 2 != 1)

/-- Start of the inner `range` of the triangular mesh for layer `l`
(layers.py line 335): `abs(l+1-(N-1))`. -/
def triStart (N l : Nat) : Nat := ((l : Int) + 1 - ((N : Int) - 1)).natAbs

/-- Triangular mesh, one layer (layers.py line 335): the pair indices of
`range(abs(l+1-(N-1)), N-1, 2)`. -/
def triLayerKs (N l : Nat) : List Nat :=
  (List.range (N - 1)).filter (fun k => triStart N l ≤ k && (k - triStart N l) % 2 == 0)

/-- All wire pairs selected by the rectangular mesh, in scan order: layers
`l = 0 .. N-1` (layers.py line 320), within a layer the active adjacent
pairs `(w[k], w[k+1])`. -/
def rectPairs (w : List Nat) : List (Nat × Nat) :=
  (List.range w.length).flatMap
    (fun l => (rectLayerKs w.length l).map (fun k => (w.getD k 0, w.getD (k + 1) 0)))

/-- All wire pairs selected by the triangular mesh, in scan order: layers
`l = 0 .. 2N-4` (layers.py line 334), within a layer the pairs
`(w[k], w[k+1])` for `k` in the stepped range. -/
def triPairs (w : List Nat) : List (Nat × Nat) :=
  (List.range (2 * w.length - 3)).flatMap
    (fun l => (triLayerKs w.length l).map (fun k => (w.getD k 0, w.getD (k + 1) 0)))

/-- The wire pairs the scheduler couples for a given concrete `mesh`
argument; a string that names neither scheme selects no pairs (the Python
code falls through both `if` branches and emits no coupling). -/
def meshPairs (mesh : Cfg) (w : List Nat) : List (Nat × Nat) :=
  if mesh = .str "rectangular" then rectPairs w
  else if mesh = .str "triangular" then triPairs w
  else []

/-- The operations emitted for one selected pair (layers.py lines 324-328
and 336-340): under `beamsplitter == 'clements'` a `Rotation(phi[n])` on
the first wire followed by `Beamsplitter(theta[n], 0)`; otherwise a single
fused `Beamsplitter(theta[n], phi[n])`. -/
def bsOps (beamsplitter : Cfg) (t p : Int) (w1 w2 : Nat) : List Op :=
  if beamsplitter = .str "clements" then [.rot p w1, .bs t 0 w1 w2]
  else [.bs t p w1 w2]

/-- Emission loop over the selected pairs, threading the free-parameter
counter `n` (layers.py line 315, incremented at lines 329/341): each pair
reads `theta[n]` and `phi[n]` (raising `IndexError` when `n` is past the
end of either array) and appends its operations. -/
def emitPairs (beamsplitter : Cfg) (theta phi : List Int) :
    List (Nat × Nat) → Nat → Except SchedErr (List Op × Nat)
| [], n => .ok ([], n)
| (w1, w2) :: rest, n =>
    match theta[n]?, phi[n]? with
    | some t, some p =>
        match emitPairs beamsplitter theta phi rest (n + 1) with
        | .error e => .error e
        | .ok (ops, n') => .ok (bsOps beamsplitter t p w1 w2 ++ ops, n')
    | _, _ => .error .indexError

/-- The pure shape of the operations emitted for a pair list starting at
counter `n`, used to state what `emitPairs` returns on success. -/
def expandOps (beamsplitter : Cfg) (theta phi : List Int) :
    List (Nat × Nat) → Nat → List Op
| [], _ => []
| (w1, w2) :: rest, n =>
    bsOps beamsplitter (theta.getD n 0) (phi.getD n 0) w1 w2 ++
      expandOps beamsplitter theta phi rest (n + 1)

/-- The final local phase shifts (layers.py lines 344-345): for
`i, p in enumerate(varphi)`, a `Rotation(p, wires=[w[i]])`; indexing `w[i]`
raises `IndexError` when `varphi` is longer than `w`. -/
def finalRots : List Int → List Nat → Nat → Except SchedErr (List Op)
| [], _, _ => .ok []
| p :: ps, w, i =>
    match w[i]? with
    | none => .error .indexError
    | some wi =>
        match finalRots ps w (i + 1) with
        | .error e => .error e
        | .ok ops => .ok (.rot p wi :: ops)

/-- Embedding of `Interferometer` (layers.py lines 294-345): reject a
symbolic `beamsplitter`, then a symbolic `mesh`; with a single wire emit
one `Rotation(varphi[0])` and return; otherwise emit the couplings of the
selected mesh followed by the final local rotations. -/
def Interferometer (theta phi varphi : List Int) (w : List Nat)
    (mesh beamsplitter : Cfg) : Except SchedErr (List Op) :=
  if beamsplitter.isVariable then .error (.qfe beamsplitterMsg)
  else if mesh.isVariable then .error (.qfe meshMsg)
  else if w.length = 1 then
    match varphi[0]? with
    | none => .error .indexError
    | some p => .ok [.rot p (w.getD 0 0)]
  else
    match emitPairs beamsplitter theta phi (meshPairs mesh w) 0 with
    | .error e => .error e
    | .ok (ops, _) =>
        match finalRots varphi w 0 with
        | .error e => .error e
        | .ok fops => .ok (ops ++ fops)

mutual
/-- If the flat sequence is long enough, `_unflatten` succeeds, consumes
exactly `demand m` elements, and the restored value flattens back to the
consumed prefix. -/
theorem unflattenAux_ok (m : PyTree) (F : List Val) (h : demand m ≤ F.length) :
    ∃ r, unflattenAux F m = .ok (r, F.drop (demand m)) ∧
      flatten r = F.take (demand m) := by
  cases m with
  | scalar v =>
      cases F with
      | nil => simp [demand] at h
      | cons a rest => exact ⟨.scalar a, by simp [unflattenAux, demand, flatten]⟩
  | scalarArr d v =>
      cases F with
      | nil => simp [demand] at h
      | cons a rest => exact ⟨.scalarArr d a, by simp [unflattenAux, demand, flatten]⟩
  | ndarr d es =>
      cases es with
      | nil =>
          cases F with
          | nil => simp [demand] at h
          | cons a rest => exact ⟨.scalarArr d a, by simp [unflattenAux, demand, flatten]⟩
      | cons e t =>
          obtain ⟨rs, enc, hrun, hflat⟩ := unflattenAuxList_ok (.cons e t) F h
          exact ⟨.ndarr (if enc then .object else d) rs, by
            simp [unflattenAux, hrun, demand, flatten, hflat]⟩
  | list es =>
      cases es with
      | nil =>
          exact ⟨.tup .nil, by simp [unflattenAux, demand, demandForest, flatten, flattenForest]⟩
      | cons e t =>
          obtain ⟨rs, enc, hrun, hflat⟩ := unflattenAuxList_ok (.cons e t) F h
          exact ⟨.list rs, by simp [unflattenAux, hrun, demand, flatten, hflat]⟩
  | tup es =>
      cases es with
      | nil =>
          exact ⟨.tup .nil, by simp [unflattenAux, demand, demandForest, flatten, flattenForest]⟩
      | cons e t =>
          obtain ⟨rs, enc, hrun, hflat⟩ := unflattenAuxList_ok (.cons e t) F h
          exact ⟨.tup rs, by simp [unflattenAux, hrun, demand, flatten, hflat]⟩

/-- Forest version of `unflattenAux_ok`: element-by-element restoration
from a long-enough sequence succeeds and consumes `demandForest es`
elements. -/
theorem unflattenAuxList_ok (es : PyForest) (F : List Val)
    (h : demandForest es ≤ F.length) :
    ∃ rs enc, unflattenAuxList F es = .ok (rs, enc, F.drop (demandForest es)) ∧
      flattenForest rs = F.take (demandForest es) := by
  cases es with
  | nil => exact ⟨.nil, false, by simp [unflattenAuxList, demandForest, flattenForest]⟩
  | cons e t =>
      have hsum : demandForest (.cons e t) = demand e + demandForest t := rfl
      have hde : demand e ≤ F.length := by omega
      obtain ⟨r, hrun, hflat⟩ := unflattenAux_ok e F hde
      have hdt : demandForest t ≤ (F.drop (demand e)).length := by
        simp only [List.length_drop]
        omega
      obtain ⟨rs, enc, hrunt, hflatt⟩ := unflattenAuxList_ok t (F.drop (demand e)) hdt
      refine ⟨.cons r rs, r.isVariable || enc, ?_, ?_⟩
      · simp only [unflattenAuxList, hrun, hrunt, List.drop_drop]
        simp [demandForest, Nat.add_comm]
      · rw [hsum, List.take_add, flattenForest, hflat, hflatt]
end

mutual
/-- If the flat sequence is too short, `_unflatten` raises `IndexError`. -/
theorem unflattenAux_starved (m : PyTree) (F : List Val) (h : F.length < demand m) :
    unflattenAux F m = .error .indexError := by
  cases m with
  | scalar v =>
      cases F with
      | nil => simp [unflattenAux]
      | cons a rest => simp [demand] at h
  | scalarArr d v =>
      cases F with
      | nil => simp [unflattenAux]
      | cons a rest => simp [demand] at h
  | ndarr d es =>
      cases es with
      | nil =>
          cases F with
          | nil => simp [unflattenAux]
          | cons a rest => simp [demand] at h
      | cons e t =>
          have := unflattenAuxList_starved (.cons e t) F h
          simp [unflattenAux, this]
  | list es =>
      cases es with
      | nil => simp [demand, demandForest] at h
      | cons e t =>
          have := unflattenAuxList_starved (.cons e t) F h
          simp [unflattenAux, this]
  | tup es =>
      cases es with
      | nil => simp [demand, demandForest] at h
      | cons e t =>
          have := unflattenAuxList_starved (.cons e t) F h
          simp [unflattenAux, this]

/-- Forest version of `unflattenAux_starved`. -/
theorem unflattenAuxList_starved (es : PyForest) (F : List Val)
    (h : F.length < demandForest es) :
    unflattenAuxList F es = .error .indexError := by
  cases es with
  | nil => simp [demandForest] at h
  | cons e t =>
      have hsum : demandForest (.cons e t) = demand e + demandForest t := rfl
      by_cases he : F.length < demand e
      · have := unflattenAux_starved e F he
        simp [unflattenAuxList, this]
      · push_neg at he
        obtain ⟨r, hrun, hflat⟩ := unflattenAux_ok e F he
        have ht : (F.drop (demand e)).length < demandForest t := by
          simp only [List.length_drop]
          omega
        have := unflattenAuxList_starved t (F.drop (demand e)) ht
        simp [unflattenAuxList, hrun, this]
end

mutual
/-- Round trip: restoring the flattened form of a good model (followed by
any remainder) returns the model itself and the remainder. -/
theorem unflattenAux_roundtrip (m : PyTree) (h1 : wfDtype m = true)
    (h2 : noEmptyArr m = true) (h3 : noEmptyList m = true) (rest : List Val) :
    unflattenAux (flatten m ++ rest) m = .ok (m, rest) := by
  cases m with
  | scalar v => simp [flatten, unflattenAux]
  | scalarArr d v => simp [flatten, unflattenAux]
  | ndarr d es =>
      cases es with
      | nil => simp [noEmptyArr] at h2
      | cons e t =>
          simp only [wfDtype, Bool.and_eq_true] at h1
          obtain ⟨hdt, hwf⟩ := h1
          have hd : PyForest.anyVariable (.cons e t) = true → d = Dtype.object := by
            intro hv
            rw [hv] at hdt
            simpa using hdt
          clear hdt
          have hrun := unflattenAuxList_roundtrip (.cons e t) hwf
            (by simpa [noEmptyArr] using h2) (by simpa [noEmptyList] using h3) rest
          simp only [flatten, unflattenAux, hrun]
          cases hv : PyForest.anyVariable (.cons e t) with
          | false => simp
          | true => simp [hd hv]
  | list es =>
      cases es with
      | nil => simp [noEmptyList] at h3
      | cons e t =>
          have hrun := unflattenAuxList_roundtrip (.cons e t)
            (by simpa [wfDtype] using h1)
            (by simpa [noEmptyArr] using h2) (by simpa [noEmptyList] using h3) rest
          simp [flatten, unflattenAux, hrun]
  | tup es =>
      cases es with
      | nil => simp [flatten, flattenForest, unflattenAux]
      | cons e t =>
          have hrun := unflattenAuxList_roundtrip (.cons e t)
            (by simpa [wfDtype] using h1)
            (by simpa [noEmptyArr] using h2) (by simpa [noEmptyList] using h3) rest
          simp [flatten, unflattenAux, hrun]

/-- Forest version of `unflattenAux_roundtrip`; the accumulated
`encountered_variable` flag is exactly `anyVariable` of the model. -/
theorem unflattenAuxList_roundtrip (es : PyForest) (h1 : wfDtypeForest es = true)
    (h2 : noEmptyArrForest es = true) (h3 : noEmptyListForest es = true)
    (rest : List Val) :
    unflattenAuxList (flattenForest es ++ rest) es = .ok (es, es.anyVariable, rest) := by
  cases es with
  | nil => simp [flattenForest, unflattenAuxList, PyForest.anyVariable]
  | cons e t =>
      simp only [wfDtypeForest, noEmptyArrForest, noEmptyListForest,
        Bool.and_eq_true] at h1 h2 h3
      have he := unflattenAux_roundtrip e h1.1 h2.1 h3.1 (flattenForest t ++ rest)
      have ht := unflattenAuxList_roundtrip t h1.2 h2.2 h3.2 rest
      simp only [flattenForest, List.append_assoc, unflattenAuxList, he, ht]
      simp [PyForest.anyVariable]
end

mutual
/-- Without zero-length rank-at-least-1 arrays, the consumption of
`_unflatten` equals the leaf count. -/
theorem demand_eq (m : PyTree) (h : noEmptyArr m = true) :
    demand m = (flatten m).length := by
  cases m with
  | scalar v => rfl
  | scalarArr d v => rfl
  | ndarr d es =>
      cases es with
      | nil => simp [noEmptyArr] at h
      | cons e t => exact demandForest_eq (.cons e t) (by simpa [noEmptyArr] using h)
  | list es => exact demandForest_eq es (by simpa [noEmptyArr] using h)
  | tup es => exact demandForest_eq es (by simpa [noEmptyArr] using h)

/-- Forest version of `demand_eq`. -/
theorem demandForest_eq (es : PyForest) (h : noEmptyArrForest es = true) :
    demandForest es = (flattenForest es).length := by
  cases es with
  | nil => rfl
  | cons e t =>
      simp only [noEmptyArrForest, Bool.and_eq_true] at h
      have h1 := demand_eq e h.1
      have h2 := demandForest_eq t h.2
      simp [demandForest, flattenForest, h1, h2]
end

mutual
/-- The leaf count never exceeds the consumption of `_unflatten`. -/
theorem leafCount_le_demand (m : PyTree) : (flatten m).length ≤ demand m := by
  cases m with
  | scalar v => simp [flatten, demand]
  | scalarArr d v => simp [flatten, demand]
  | ndarr d es =>
      cases es with
      | nil => simp [flatten, flattenForest, demand]
      | cons e t => exact leafCountForest_le_demand (.cons e t)
  | list es => exact leafCountForest_le_demand es
  | tup es => exact leafCountForest_le_demand es

/-- Forest version of `leafCount_le_demand`. -/
theorem leafCountForest_le_demand (es : PyForest) :
    (flattenForest es).length ≤ demandForest es := by
  cases es with
  | nil => simp [flattenForest, demandForest]
  | cons e t =>
      have h1 := leafCount_le_demand e
      have h2 := leafCountForest_le_demand t
      simp only [flattenForest, demandForest, List.length_append]
      omega
end

/-- On a successful element-by-element restoration, the accumulated
`encountered_variable` flag is exactly whether some restored element is a
bare `Variable`, and as many elements are restored as the model has. -/
theorem unflattenAuxList_spec (es : PyForest) (F : List Val) (rs : PyForest)
    (enc : Bool) (tail : List Val)
    (h : unflattenAuxList F es = .ok (rs, enc, tail)) :
    enc = rs.anyVariable ∧ rs.length = es.length := by
  cases es with
  | nil =>
      simp only [unflattenAuxList] at h
      obtain ⟨h1, h2, h3⟩ := by simpa using h
      subst h1 h2
      simp [PyForest.anyVariable]
  | cons e t =>
      simp only [unflattenAuxList] at h
      split at h
      · simp at h
      · rename_i r rest hA
        split at h
        · simp at h
        · rename_i rs' enc' tail' hB
          obtain ⟨h1, h2, h3⟩ := by simpa using h
          obtain ⟨ih1, ih2⟩ := unflattenAuxList_spec t rest rs' enc' tail' hB
          subst h1 h2
          simp [PyForest.anyVariable, PyForest.length, ih1, ih2]

/-- C1 (counterexample): the round-trip law fails as stated on two
supported models.  For the empty-list model the restored value is an empty
tuple, not a list (wrong container kind); for a zero-length rank-1 array
the code takes the `l == 0` array branch, tries to consume an element from
the empty flattened form, and raises `IndexError`, so restoration does not
reproduce the model at all. -/
theorem roundtrip_fails_on_empty_containers :
    unflatten (flatten (PyTree.list PyForest.nil)) (PyTree.list PyForest.nil)
      = .ok (PyTree.tup PyForest.nil) ∧
    PyTree.tup PyForest.nil ≠ PyTree.list PyForest.nil ∧
    unflatten (flatten (PyTree.ndarr (Dtype.numeric 0) PyForest.nil))
      (PyTree.ndarr (Dtype.numeric 0) PyForest.nil) = .error .indexError := by
  decide

/-- C1 (amended): for every good model (no zero-length lists, no
zero-length rank-at-least-1 arrays, consistent dtypes), restoring the
flattened form yields the model itself, and restoring any flat sequence of
the right length succeeds and flattens back to that sequence. -/
theorem unflatten_flatten_roundtrip (m : PyTree) (h : goodModel m = true) :
    unflatten (flatten m) m = .ok m ∧
    ∀ F : List Val, F.length = leafCount m →
      ∃ r, unflatten F m = .ok r ∧ flatten r = F := by
  simp only [goodModel, Bool.and_eq_true] at h
  constructor
  · have hrt := unflattenAux_roundtrip m h.1.1 h.1.2 h.2 []
    rw [List.append_nil] at hrt
    simp [unflatten, hrt]
  · intro F hF
    have hd : demand m = leafCount m := by
      rw [demand_eq m h.1.2]; rfl
    obtain ⟨r, hrun, hflat⟩ := unflattenAux_ok m F (by omega)
    refine ⟨r, ?_, ?_⟩
    · rw [unflatten, hrun]
      rw [hd, ← hF, List.drop_length]
      simp
    · rw [hflat, hd, ← hF, List.take_length]

/-- C1 (witness): the round trip at a concrete good model. -/
theorem unflatten_flatten_roundtrip_witness :
    goodModel (PyTree.tup (.cons (.scalar (.num 1))
        (.cons (.ndarr (.numeric 0) (.cons (.scalar (.num 2)) .nil)) .nil))) = true ∧
    unflatten (flatten (PyTree.tup (.cons (.scalar (.num 1))
        (.cons (.ndarr (.numeric 0) (.cons (.scalar (.num 2)) .nil)) .nil))))
      (PyTree.tup (.cons (.scalar (.num 1))
        (.cons (.ndarr (.numeric 0) (.cons (.scalar (.num 2)) .nil)) .nil)))
      = .ok (PyTree.tup (.cons (.scalar (.num 1))
        (.cons (.ndarr (.numeric 0) (.cons (.scalar (.num 2)) .nil)) .nil))) :=
  ⟨by decide, (unflatten_flatten_roundtrip _ (by decide)).1⟩

/-- C7 (counterexample): for the zero-length rank-1 array model,
`leaf_count` is 0 but `unflatten` with a flat sequence of length
`leaf_count + 1 = 1` succeeds (the spurious element is consumed by the
`l == 0` array branch) instead of raising the length-mismatch
`ValueError`. -/
theorem unflatten_mismatch_fails_on_empty_array :
    leafCount (PyTree.ndarr (Dtype.numeric 0) PyForest.nil) = 0 ∧
    unflatten [Val.num 5] (PyTree.ndarr (Dtype.numeric 0) PyForest.nil)
      = .ok (PyTree.scalarArr (Dtype.numeric 0) (Val.num 5)) := by
  decide

/-- C7 (amended): for a model without zero-length rank-at-least-1 arrays,
one flat element too many raises `ValueError` (the `LengthMismatch` of the
top-level `unflatten`); for any model with at least one leaf, one flat
element too few raises `IndexError` (the starved `flat[0]` access inside
`_unflatten`). -/
theorem unflatten_length_mismatch (m : PyTree) (F G : List Val) :
    (noEmptyArr m = true → F.length = leafCount m + 1 →
      unflatten F m = .error .valueError) ∧
    (1 ≤ leafCount m → G.length = leafCount m - 1 →
      unflatten G m = .error .indexError) := by
  constructor
  · intro hA hF
    have hd : demand m = leafCount m := by
      rw [demand_eq m hA]; rfl
    obtain ⟨r, hrun, _⟩ := unflattenAux_ok m F (by omega)
    rw [unflatten, hrun]
    have : (F.drop (demand m)).length = 1 := by
      rw [List.length_drop]; omega
    simp [this]
  · intro hc hG
    have hle : (flatten m).length ≤ demand m := leafCount_le_demand m
    have hlc : leafCount m = (flatten m).length := rfl
    have hst := unflattenAux_starved m G (by omega)
    rw [unflatten, hst]

/-- C7 (witness): both failure modes at a concrete model. -/
theorem unflatten_length_mismatch_witness :
    unflatten [Val.num 1, Val.num 2] (PyTree.scalar (Val.num 0)) = .error .valueError ∧
    unflatten [] (PyTree.scalar (Val.num 0)) = .error .indexError :=
  ⟨(unflatten_length_mismatch (PyTree.scalar (Val.num 0)) [Val.num 1, Val.num 2] []).1
      (by decide) (by decide),
   (unflatten_length_mismatch (PyTree.scalar (Val.num 0)) [Val.num 1, Val.num 2] []).2
      (by decide) (by decide)⟩

/-- C8 (counterexample): a rank-2 numeric array model restored from a flat
sequence whose only element is a `Variable`: a restored leaf is symbolic,
yet the reconstructed outer array keeps the numeric dtype, because
`encountered_variable` only inspects the directly restored elements (which
are sub-arrays here, not `Variable`s). -/
theorem array_dtype_promotion_misses_deep_variables :
    unflatten [Val.var 0]
      (PyTree.ndarr (Dtype.numeric 0)
        (.cons (.ndarr (.numeric 0) (.cons (.scalar (.num 8)) .nil)) .nil))
      = .ok (PyTree.ndarr (Dtype.numeric 0)
        (.cons (.ndarr .object (.cons (.scalar (.var 0)) .nil)) .nil)) ∧
    Dtype.numeric 0 ≠ Dtype.object := by
  decide

/-- C8 (amended): restoring a nonzero-length numpy array model yields an
array with as many elements as the model, whose dtype is the generic
`object` dtype exactly when some directly restored element is a bare
`Variable` (for a rank-1 array these are precisely its restored leaves) and
otherwise is the model's original dtype.  Variables appearing deeper (in
rank-2 or higher arrays) do not trigger the promotion. -/
theorem array_dtype_promotion (d : Dtype) (es : PyForest) (F tail : List Val)
    (r : PyTree) (hne : es ≠ .nil)
    (h : unflattenAux F (.ndarr d es) = .ok (r, tail)) :
    ∃ rs : PyForest, r = .ndarr (if rs.anyVariable then .object else d) rs ∧
      rs.length = es.length := by
  cases es with
  | nil => exact absurd rfl hne
  | cons e t =>
      simp only [unflattenAux] at h
      split at h
      · simp at h
      · rename_i rs' enc' tail' hB
        obtain ⟨hspec1, hspec2⟩ := unflattenAuxList_spec _ _ _ _ _ hB
        obtain ⟨h1, h2⟩ := by simpa using h
        exact ⟨rs', by rw [← h1, hspec1], by rw [hspec2]⟩

/-- C8 (witness): the amended dtype rule at a concrete rank-1 array with a
symbolic leaf. -/
theorem array_dtype_promotion_witness :
    ∃ rs : PyForest,
      PyTree.ndarr Dtype.object (.cons (.scalar (.var 3)) .nil)
        = .ndarr (if rs.anyVariable then .object else Dtype.numeric 0) rs ∧
      rs.length = (PyForest.cons (PyTree.scalar (Val.num 8)) .nil).length :=
  array_dtype_promotion (Dtype.numeric 0) (.cons (.scalar (.num 8)) .nil)
    [Val.var 3] [] _ (by decide) (by decide)

/-- C9 (counterexample): two zero-length container behaviours contradict
the claim.  A zero-length rank-1 array is not a rank-0 array, yet one
element is consumed and wrapped as a rank-0 array; and a zero-length list
is restored as an empty tuple, not as an empty container of the model's
container type. -/
theorem zero_length_container_claim_fails :
    unflattenAux [Val.num 5] (PyTree.ndarr (Dtype.numeric 0) PyForest.nil)
      = .ok (PyTree.scalarArr (Dtype.numeric 0) (Val.num 5), []) ∧
    unflattenAux [] (PyTree.list PyForest.nil) = .ok (PyTree.tup PyForest.nil, []) ∧
    PyTree.tup PyForest.nil ≠ PyTree.list PyForest.nil := by
  decide

/-- C9 (amended): the `l == 0` branch of `_unflatten` consumes exactly one
element and wraps it as a rank-0 array of the model's dtype for every
numpy-array model of zero axis-0 extent (rank-0 arrays and zero-length
rank-1 arrays alike); for a zero-length list or tuple model it consumes
nothing and returns the empty tuple (always a tuple, whatever the model's
container type). -/
theorem zero_length_containers (d : Dtype) (v0 a : Val) (F : List Val) :
    unflattenAux (a :: F) (.scalarArr d v0) = .ok (.scalarArr d a, F) ∧
    unflattenAux (a :: F) (.ndarr d .nil) = .ok (.scalarArr d a, F) ∧
    unflattenAux F (.list .nil) = .ok (.tup .nil, F) ∧
    unflattenAux F (.tup .nil) = .ok (.tup .nil, F) := by
  refine ⟨?_, ?_, ?_, ?_⟩ <;> simp [unflattenAux]

/-- C10: for a rank-0 array model, `_unflatten` returns
`np.array(flat[0], dtype=model.dtype)` — the consumed element is tagged
with the model's original dtype, with no symbolic-to-`object` promotion,
even when the consumed element is a `Variable`. -/
theorem rank0_array_keeps_model_dtype (d : Dtype) (v0 a : Val) (F : List Val)
    (i : Nat) :
    unflattenAux (a :: F) (.scalarArr d v0) = .ok (.scalarArr d a, F) ∧
    unflattenAux (Val.var i :: F) (.scalarArr d v0)
      = .ok (.scalarArr d (Val.var i), F) := by
  constructor <;> simp [unflattenAux]

/-- Counting the layer-parity filter: among `k < m` exactly
`(m + 1 - l % 2) / 2` satisfy `(l + k) % 2 ≠ 1`. -/
theorem filter_parity_length (m l : Nat) :
    ((List.range m).filter (fun k => (l + k) % 2 != 1)).length
      = (m + 1 - l % 2) / 2 := by
  induction m with
  | zero =>
      simp
      omega
  | succ m ih =>
      rw [List.range_succ, List.filter_append, List.length_append, ih]
      cases hc : ((l + m) % 2 != 1) with
      | true =>
          have hc2 : (l + m) % 2 ≠ 1 := by simpa using hc
          simp [List.filter, hc]
          omega
      | false =>
          have hc2 : (l + m) % 2 = 1 := by simpa using hc
          simp [List.filter, hc]
          omega

/-- Counting a stepped range: among `k < m` exactly `(m - s + 1) / 2`
satisfy `s ≤ k` and `(k - s) % 2 = 0` (the elements of
`range(s, m, 2)`). -/
theorem filter_step2_length (m s : Nat) :
    ((List.range m).filter (fun k => s ≤ k && (k - s) % 2 == 0)).length
      = (m - s + 1) / 2 := by
  induction m with
  | zero =>
      simp only [List.range_zero, List.filter_nil, List.length_nil]
      omega
  | succ m ih =>
      rw [List.range_succ, List.filter_append, List.length_append, ih]
      cases hc : (s ≤ m && (m - s) % 2 == 0) with
      | true =>
          have hc2 : s ≤ m ∧ (m - s) % 2 = 0 := by simpa using hc
          simp [List.filter, hc]
          omega
      | false =>
          have hc2 : ¬(s ≤ m ∧ (m - s) % 2 = 0) := by
            intro hx
            rw [Bool.and_eq_false_iff] at hc
            rcases hc with h | h
            · simp at h; omega
            · simp at h; omega
          simp [List.filter, hc]
          omega

/-- Per-layer coupling count of the rectangular mesh. -/
theorem rectLayerKs_length (N l : Nat) :
    (rectLayerKs N l).length = (N - 1 + 1 - l % 2) / 2 :=
  filter_parity_length (N - 1) l

/-- Per-layer coupling count of the triangular mesh. -/
theorem triLayerKs_length (N l : Nat) :
    (triLayerKs N l).length = (N - 1 - triStart N l + 1) / 2 :=
  filter_step2_length (N - 1) (triStart N l)

/-- Summing the rectangular per-layer counts over an even number of
layers: consecutive layers pair up to `m` couplings. -/
theorem rect_sum_even (m j : Nat) :
    (((List.range (2 * j)).map (fun l => (m + 1 - l % 2) / 2)).sum) = j * m := by
  induction j with
  | zero => simp
  | succ j ih =>
      have h2 : 2 * (j + 1) = (2 * j) + 1 + 1 := by omega
      rw [h2, List.range_succ, List.range_succ]
      simp only [List.map_append, List.sum_append, ih]
      have hsm : (j + 1) * m = j * m + m := by ring
      rw [hsm]
      have ha : (2 * j) % 2 = 0 := by omega
      have hb : (2 * j + 1) % 2 = 1 := by omega
      simp only [List.map_cons, List.map_nil, List.sum_cons, List.sum_nil, ha, hb]
      omega

/-- Total coupling count of the rectangular mesh: `N (N - 1) / 2`. -/
theorem rectLayer_sum (N : Nat) :
    ((List.range N).map (fun l => (rectLayerKs N l).length)).sum
      = N * (N - 1) / 2 := by
  simp only [rectLayerKs_length]
  rcases Nat.even_or_odd N with ⟨j, hj⟩ | ⟨j, hj⟩
  · have h2 : N = 2 * j := by omega
    subst h2
    rw [rect_sum_even (2 * j - 1) j]
    rw [show 2 * j * (2 * j - 1) = j * (2 * j - 1) * 2 from by ring,
      Nat.mul_div_cancel _ (by omega)]
  · have h2 : N = 2 * j + 1 := by omega
    subst h2
    rw [List.range_succ]
    simp only [List.map_append, List.map_cons, List.map_nil, List.sum_append,
      List.sum_cons, List.sum_nil]
    rw [rect_sum_even (2 * j + 1 - 1) j]
    rw [show (2 * j + 1) * (2 * j + 1 - 1) = (j * (2 * j + 1 - 1) + j) * 2 from by
      ring_nf; omega, Nat.mul_div_cancel _ (by omega)]
    omega

/-- Total coupling count of the rectangular mesh over a wire list. -/
theorem rectPairs_length (w : List Nat) :
    (rectPairs w).length = w.length * (w.length - 1) / 2 := by
  rw [rectPairs, List.length_flatMap]
  simp only [Function.comp_def, List.length_map]
  exact rectLayer_sum w.length

/-- The descending half-sum equals the ascending one: summing
`(c + 1 - x) / 2` over `x < c` is summing `(i + 2) / 2` over `i < c`. -/
theorem tri_descending_sum (c : Nat) :
    ((List.range c).map (fun x => (c + 1 - x) / 2)).sum
      = ((List.range c).map (fun i => (i + 2) / 2)).sum := by
  induction c with
  | zero => rfl
  | succ c ih =>
      conv_lhs => rw [List.range_succ_eq_map c]
      conv_rhs => rw [List.range_succ]
      simp only [List.map_cons, List.sum_cons, List.map_map, List.map_append,
        List.map_nil, List.sum_append, List.sum_nil, Function.comp_def]
      have hcongr : (List.range c).map (fun x => (c + 1 + 1 - (x + 1)) / 2)
          = (List.range c).map (fun x => (c + 1 - x) / 2) := by
        refine List.map_congr_left ?_
        intro a ha
        congr 1
        omega
      rw [hcongr, ih]
      omega

/-- Gauss-style sum for the triangular mesh halves. -/
theorem tri_halves_sum (c : Nat) :
    ((List.range (c + 1)).map (fun i => (i + 2) / 2)).sum
      + ((List.range c).map (fun i => (i + 2) / 2)).sum
      = (c + 1) * (c + 2) / 2 := by
  induction c with
  | zero => decide
  | succ c ih =>
      rw [List.range_succ (n := c + 1), List.range_succ (n := c)]
      rw [List.range_succ (n := c)] at ih
      simp only [List.map_append, List.map_cons, List.map_nil, List.sum_append,
        List.sum_cons, List.sum_nil] at ih ⊢
      rw [show (c + 1 + 1) * (c + 1 + 2) = (c + 1) * (c + 2) + 2 * (c + 2) from by ring]
      generalize hA : (c + 1) * (c + 2) = A at ih ⊢
      omega

/-- Total coupling count of the triangular mesh: `N (N - 1) / 2` for
`N ≥ 2`. -/
theorem triPairs_length (w : List Nat) (hN : 2 ≤ w.length) :
    (triPairs w).length = w.length * (w.length - 1) / 2 := by
  obtain ⟨c, hc⟩ : ∃ c, w.length = c + 2 := ⟨w.length - 2, by omega⟩
  rw [triPairs, List.length_flatMap]
  simp only [Function.comp_def, List.length_map, triLayerKs_length]
  rw [hc]
  have hts : ∀ l : Nat, triStart (c + 2) l = if l ≤ c then c - l else l - c := by
    intro l
    simp only [triStart]
    split <;> (push_cast; omega)
  have hrange : 2 * (c + 2) - 3 = (c + 1) + c := by omega
  rw [hrange, List.range_add]
  simp only [List.map_append, List.sum_append, List.map_map, Function.comp_def]
  have hmap1 : (List.range (c + 1)).map (fun l => (c + 2 - 1 - triStart (c + 2) l + 1) / 2)
      = (List.range (c + 1)).map (fun i => (i + 2) / 2) := by
    refine List.map_congr_left ?_
    intro a ha
    rw [List.mem_range] at ha
    rw [hts a, if_pos (by omega : a ≤ c)]
    congr 1
    omega
  have hmap2 : (List.range c).map (fun x => (c + 2 - 1 - triStart (c + 2) (c + 1 + x) + 1) / 2)
      = (List.range c).map (fun x => (c + 1 - x) / 2) := by
    refine List.map_congr_left ?_
    intro a ha
    rw [List.mem_range] at ha
    rw [hts (c + 1 + a), if_neg (by omega : ¬(c + 1 + a ≤ c))]
    congr 1
    omega
  rw [hmap1, hmap2, tri_descending_sum, tri_halves_sum]
  rw [show c + 2 - 1 = c + 1 from by omega, Nat.mul_comm]

/-- When both angle arrays are long enough, the emission loop succeeds,
returns the expanded schedule and leaves the counter at `n` plus the
number of pairs. -/
theorem emitPairs_ok (bs : Cfg) (theta phi : List Int) (P : List (Nat × Nat)) (n : Nat)
    (ht : n + P.length ≤ theta.length) (hp : n + P.length ≤ phi.length) :
    emitPairs bs theta phi P n = .ok (expandOps bs theta phi P n, n + P.length) := by
  induction P generalizing n with
  | nil => simp [emitPairs, expandOps]
  | cons pr rest ih =>
      obtain ⟨w1, w2⟩ := pr
      simp only [List.length_cons] at ht hp
      have hnt : n < theta.length := by omega
      have hnp : n < phi.length := by omega
      have h1 : theta[n]? = some (theta.getD n 0) := by
        rw [List.getElem?_eq_getElem hnt, List.getD_eq_getElem _ _ hnt]
      have h2 : phi[n]? = some (phi.getD n 0) := by
        rw [List.getElem?_eq_getElem hnp, List.getD_eq_getElem _ _ hnp]
      have hrec := ih (n + 1) (by omega) (by omega)
      simp only [List.length_cons]
      rw [show n + (rest.length + 1) = n + 1 + rest.length from by omega]
      simp only [emitPairs, h1, h2, hrec, expandOps]

/-- Each selected pair contributes exactly one coupling operation, in
either convention. -/
theorem expandOps_filter_length (bs : Cfg) (theta phi : List Int)
    (P : List (Nat × Nat)) (n : Nat) :
    ((expandOps bs theta phi P n).filter Op.isBS).length = P.length := by
  induction P generalizing n with
  | nil => simp [expandOps]
  | cons pr rest ih =>
      obtain ⟨w1, w2⟩ := pr
      simp only [expandOps, List.filter_append, List.length_append, ih]
      by_cases hb : bs = .str "clements" <;> simp [bsOps, hb, Op.isBS] <;> omega

/-- Every emitted coupling operation acts on one of the selected pairs. -/
theorem expandOps_mem_bs (bs : Cfg) (theta phi : List Int) (P : List (Nat × Nat))
    (n : Nat) (t p : Int) (w1 w2 : Nat)
    (h : Op.bs t p w1 w2 ∈ expandOps bs theta phi P n) : (w1, w2) ∈ P := by
  induction P generalizing n with
  | nil => simp [expandOps] at h
  | cons pr rest ih =>
      obtain ⟨a, b⟩ := pr
      simp only [expandOps, List.mem_append] at h
      rcases h with h | h
      · by_cases hb : bs = .str "clements"
        · simp [bsOps, hb] at h
          simp [h]
        · simp [bsOps, hb] at h
          simp [h]
      · exact List.mem_cons_of_mem _ (ih _ h)

/-- The transmittivity angles of the emitted couplings are exactly the
`theta` entries at the consecutive counter positions, in scan order. -/
theorem expandOps_bsTheta (bs : Cfg) (theta phi : List Int) (P : List (Nat × Nat))
    (n : Nat) :
    (expandOps bs theta phi P n).filterMap Op.bsTheta
      = (List.range' n P.length).map (fun i => theta.getD i 0) := by
  induction P generalizing n with
  | nil => simp [expandOps]
  | cons pr rest ih =>
      obtain ⟨w1, w2⟩ := pr
      simp only [expandOps, List.filterMap_append, List.length_cons,
        List.range'_succ, List.map_cons, ih]
      by_cases hb : bs = .str "clements" <;>
        simp [bsOps, hb, Op.bsTheta, List.filterMap_cons]

/-- Reading every position of a list in order reproduces the list. -/
theorem map_getD_range' (l : List Int) :
    (List.range' 0 l.length).map (fun i => l.getD i 0) = l := by
  refine List.ext_getElem (by simp) ?_
  intro i h1 h2
  simp only [List.getElem_map]
  rw [List.getElem_range']
  rw [show (0 : Nat) + 1 * i = i from by omega, List.getD_eq_getElem _ _ h2]

/-- The final local rotations succeed when `varphi` is not longer than the
wire list, and contain no coupling operation. -/
theorem finalRots_ok (varphi : List Int) (w : List Nat) (i : Nat)
    (h : i + varphi.length ≤ w.length) :
    ∃ fops, finalRots varphi w i = .ok fops ∧ fops.filter Op.isBS = [] ∧
      fops.filterMap Op.bsTheta = [] := by
  induction varphi generalizing i with
  | nil => exact ⟨[], by simp [finalRots]⟩
  | cons p ps ih =>
      simp only [List.length_cons] at h
      have hi : i < w.length := by omega
      have h1 : w[i]? = some (w.getD i 0) := by
        rw [List.getElem?_eq_getElem hi, List.getD_eq_getElem _ _ hi]
      obtain ⟨fops, hrun, hf1, hf2⟩ := ih (i + 1) (by omega)
      refine ⟨.rot p (w.getD i 0) :: fops, ?_, ?_, ?_⟩
      · simp only [finalRots, h1, hrun]
      · simp [List.filter_cons, Op.isBS, hf1]
      · simp [List.filterMap_cons, Op.bsTheta, hf2]

/-- Membership in the rectangular pair selection: every pair is an adjacent
pair of wires at a position below the wire count. -/
theorem mem_rectPairs (w : List Nat) (a b : Nat) (h : (a, b) ∈ rectPairs w) :
    ∃ k, k + 1 < w.length ∧ a = w.getD k 0 ∧ b = w.getD (k + 1) 0 := by
  simp only [rectPairs, List.mem_flatMap, List.mem_map] at h
  obtain ⟨l, hl, k, hk, hpair⟩ := h
  have hkr : k ∈ List.range (w.length - 1) := List.mem_of_mem_filter hk
  rw [List.mem_range] at hkr
  obtain ⟨ha, hb⟩ := Prod.mk.injEq .. ▸ hpair
  exact ⟨k, by omega, ha.symm, hb.symm⟩

/-- Membership in the triangular pair selection: every pair is an adjacent
pair of wires at a position below the wire count. -/
theorem mem_triPairs (w : List Nat) (a b : Nat) (h : (a, b) ∈ triPairs w) :
    ∃ k, k + 1 < w.length ∧ a = w.getD k 0 ∧ b = w.getD (k + 1) 0 := by
  simp only [triPairs, List.mem_flatMap, List.mem_map] at h
  obtain ⟨l, hl, k, hk, hpair⟩ := h
  have hkr : k ∈ List.range (w.length - 1) := List.mem_of_mem_filter hk
  rw [List.mem_range] at hkr
  obtain ⟨ha, hb⟩ := Prod.mk.injEq .. ▸ hpair
  exact ⟨k, by omega, ha.symm, hb.symm⟩

/-- Positions of `range N` read by `getD` are themselves. -/
theorem getD_range (N k : Nat) (h : k < N) : (List.range N).getD k 0 = k := by
  rw [List.getD_eq_getElem _ _ (by simpa using h)]
  exact List.getElem_range _ (by simpa using h)

/-- C2: for every `N ≥ 2` and both mesh kinds, with `theta` and `phi` of
length `N(N-1)/2` (and `varphi` not longer than the wire count), the
scheduler succeeds — so it never reads past the end of either angle
array — emits exactly `N(N-1)/2` coupling operations whose transmittivity
angles are exactly the `theta` entries at indices `0 .. N(N-1)/2 - 1` in
scan order, and every coupling acts on two distinct valid channels in
`[0, N)`. -/
theorem interferometer_coupling_count (N : Nat) (hN : 2 ≤ N)
    (theta phi varphi : List Int) (mesh beamsplitter : Cfg)
    (hmesh : mesh = Cfg.str "rectangular" ∨ mesh = Cfg.str "triangular")
    (hbs : beamsplitter.isVariable = false)
    (ht : theta.length = N * (N - 1) / 2) (hp : phi.length = N * (N - 1) / 2)
    (hv : varphi.length ≤ N) :
    ∃ ops : List Op,
      Interferometer theta phi varphi (List.range N) mesh beamsplitter = .ok ops ∧
      (ops.filter Op.isBS).length = N * (N - 1) / 2 ∧
      ops.filterMap Op.bsTheta = theta ∧
      ∀ t p w1 w2, Op.bs t p w1 w2 ∈ ops → w1 < N ∧ w2 < N ∧ w1 ≠ w2 := by
  have hmvar : mesh.isVariable = false := by
    rcases hmesh with h | h <;> simp [h, Cfg.isVariable]
  have hplen : (meshPairs mesh (List.range N)).length = N * (N - 1) / 2 := by
    rcases hmesh with h | h
    · rw [h, meshPairs, if_pos rfl, rectPairs_length, List.length_range]
    · rw [h, meshPairs, if_neg (by decide), if_pos rfl,
        triPairs_length _ (by simpa using hN), List.length_range]
  have hemit := emitPairs_ok beamsplitter theta phi
    (meshPairs mesh (List.range N)) 0 (by omega) (by omega)
  obtain ⟨fops, hfrun, hff, hft⟩ :=
    finalRots_ok varphi (List.range N) 0 (by simpa using hv)
  refine ⟨expandOps beamsplitter theta phi (meshPairs mesh (List.range N)) 0 ++ fops,
    ?_, ?_, ?_, ?_⟩
  · rw [Interferometer]
    simp only [hbs, hmvar, Bool.false_eq_true, if_false, List.length_range]
    rw [if_neg (by omega), hemit, hfrun]
  · rw [List.filter_append, List.length_append, expandOps_filter_length, hff, hplen]
    simp
  · rw [List.filterMap_append, expandOps_bsTheta, hft, List.append_nil, hplen, ← ht]
    exact map_getD_range' theta
  · intro t p w1 w2 hmem
    rw [List.mem_append] at hmem
    rcases hmem with hm | hm
    · have hpair := expandOps_mem_bs _ _ _ _ _ _ _ _ _ hm
      have hK : ∃ k, k + 1 < (List.range N).length ∧
          w1 = (List.range N).getD k 0 ∧ w2 = (List.range N).getD (k + 1) 0 := by
        rcases hmesh with h | h
        · rw [h, meshPairs, if_pos rfl] at hpair
          exact mem_rectPairs _ _ _ hpair
        · rw [h, meshPairs, if_neg (by decide), if_pos rfl] at hpair
          exact mem_triPairs _ _ _ hpair
      obtain ⟨k, hk, ha, hb⟩ := hK
      rw [List.length_range] at hk
      rw [getD_range _ _ (by omega)] at ha
      rw [getD_range _ _ (by omega)] at hb
      subst ha hb
      exact ⟨by omega, by omega, by omega⟩
    · exfalso
      have hmf : Op.bs t p w1 w2 ∈ fops.filter Op.isBS :=
        List.mem_filter.mpr ⟨hm, rfl⟩
      rw [hff] at hmf
      simp at hmf

/-- C2 (witness): the scheduler at `N = 2`, rectangular mesh. -/
theorem interferometer_coupling_count_witness :
    ∃ ops : List Op,
      Interferometer [5] [7] [1, 2] (List.range 2)
        (Cfg.str "rectangular") (Cfg.str "pennylane") = .ok ops ∧
      (ops.filter Op.isBS).length = 2 * (2 - 1) / 2 ∧
      ops.filterMap Op.bsTheta = [5] ∧
      ∀ t p w1 w2, Op.bs t p w1 w2 ∈ ops → w1 < 2 ∧ w2 < 2 ∧ w1 ≠ w2 :=
  interferometer_coupling_count 2 (by decide) [5] [7] [1, 2]
    (Cfg.str "rectangular") (Cfg.str "pennylane") (Or.inl rfl) (by decide)
    (by decide) (by decide) (by decide)

/-- Within one rectangular layer the active pair indices share the layer's
parity, so the selected adjacent pairs touch pairwise disjoint channels. -/
theorem rectLayer_no_double_touch (N l : Nat) :
    List.Pairwise (fun k1 k2 => k1 ≠ k2 ∧ k1 + 1 ≠ k2 ∧ k2 + 1 ≠ k1)
      (rectLayerKs N l) := by
  have hlt : List.Pairwise (· < ·) (rectLayerKs N l) :=
    (List.pairwise_lt_range _).sublist (List.filter_sublist _)
  refine List.Pairwise.imp_of_mem ?_ hlt
  intro a b ha hb hab
  have hpa0 := List.of_mem_filter (show a ∈ (List.range (N - 1)).filter
    (fun k => (l + k) % 2 != 1) from ha)
  have hpb0 := List.of_mem_filter (show b ∈ (List.range (N - 1)).filter
    (fun k => (l + k) % 2 != 1) from hb)
  have hpa : (l + a) % 2 ≠ 1 := by simpa using hpa0
  have hpb : (l + b) % 2 ≠ 1 := by simpa using hpb0
  refine ⟨by omega, ?_, by omega⟩
  intro hc
  subst hc
  omega

/-- C3: the rectangular scheduler takes layers `l = 0 .. N-1` and adjacent
pair indices `k = 0 .. N-2`, activating `(k, k+1)` in layer `l` iff
`(l + k) % 2 ≠ 1`; at `N = 4` the active indices per layer are `[0,2]`,
`[1]`, `[0,2]`, `[1]` and the full schedule consumes the six `(theta, phi)`
slots in scan order; within a layer no channel is touched twice. -/
theorem rectangular_mesh_schedule :
    (∀ N l k, k ∈ rectLayerKs N l ↔ (k < N - 1 ∧ (l + k) % 2 ≠ 1)) ∧
    (rectLayerKs 4 0 = [0, 2] ∧ rectLayerKs 4 1 = [1] ∧
      rectLayerKs 4 2 = [0, 2] ∧ rectLayerKs 4 3 = [1]) ∧
    (Interferometer [10, 11, 12, 13, 14, 15] [20, 21, 22, 23, 24, 25]
        [30, 31, 32, 33] (List.range 4) (.str "rectangular") (.str "pennylane")
      = .ok [.bs 10 20 0 1, .bs 11 21 2 3, .bs 12 22 1 2, .bs 13 23 0 1,
             .bs 14 24 2 3, .bs 15 25 1 2,
             .rot 30 0, .rot 31 1, .rot 32 2, .rot 33 3]) ∧
    (∀ N l, List.Pairwise (fun k1 k2 => k1 ≠ k2 ∧ k1 + 1 ≠ k2 ∧ k2 + 1 ≠ k1)
      (rectLayerKs N l)) := by
  refine ⟨?_, by decide, by decide, rectLayer_no_double_touch⟩
  intro N l k
  simp [rectLayerKs, List.mem_filter, List.mem_range, bne_iff_ne]

/-- C4: the triangular scheduler takes layers `l = 0 .. 2N-4`; within a
layer the active pair indices step by 2 from `|l + 1 - (N-1)|` up to (but
excluding) `N-1`; at `N = 4` the schedule consumes the six `(theta, phi)`
slots in scan order over pairs `(2,3), (1,2), (0,1), (2,3), (1,2),
(2,3)`. -/
theorem triangular_mesh_schedule :
    (∀ N l : Nat, triStart N l = ((l : Int) + 1 - ((N : Int) - 1)).natAbs) ∧
    (∀ N l k, k ∈ triLayerKs N l ↔
      (k < N - 1 ∧ triStart N l ≤ k ∧ (k - triStart N l) % 2 = 0)) ∧
    (∀ w : List Nat, triPairs w
      = (List.range (2 * w.length - 3)).flatMap
          (fun l => (triLayerKs w.length l).map
            (fun k => (w.getD k 0, w.getD (k + 1) 0)))) ∧
    (Interferometer [10, 11, 12, 13, 14, 15] [20, 21, 22, 23, 24, 25]
        [30, 31, 32, 33] (List.range 4) (.str "triangular") (.str "pennylane")
      = .ok [.bs 10 20 2 3, .bs 11 21 1 2, .bs 12 22 0 1, .bs 13 23 2 3,
             .bs 14 24 1 2, .bs 15 25 2 3,
             .rot 30 0, .rot 31 1, .rot 32 2, .rot 33 3]) := by
  refine ⟨fun N l => rfl, ?_, fun w => rfl, by decide⟩
  intro N l k
  simp only [triLayerKs, List.mem_filter, List.mem_range, Bool.and_eq_true,
    decide_eq_true_eq, beq_iff_eq]

/-- Under the split (`clements`) convention every selected pair becomes a
phase rotation on its first wire with the current `phi` entry, immediately
followed by a coupling with the current `theta` entry and phase `0`. -/
theorem expandOps_clements (theta phi : List Int) (P : List (Nat × Nat)) (n : Nat) :
    expandOps (Cfg.str "clements") theta phi P n
      = ((List.range' n P.length).zip P).flatMap
          (fun ip => [Op.rot (phi.getD ip.1 0) ip.2.1,
            Op.bs (theta.getD ip.1 0) 0 ip.2.1 ip.2.2]) := by
  induction P generalizing n with
  | nil => simp [expandOps]
  | cons pr rest ih =>
      obtain ⟨w1, w2⟩ := pr
      simp [expandOps, bsOps, List.length_cons, List.range'_succ, ih]

/-- Under any other concrete convention every selected pair becomes a
single fused coupling with the current `theta` and `phi` entries. -/
theorem expandOps_fused (bs : Cfg) (hb : bs ≠ Cfg.str "clements")
    (theta phi : List Int) (P : List (Nat × Nat)) (n : Nat) :
    expandOps bs theta phi P n
      = ((List.range' n P.length).zip P).map
          (fun ip => Op.bs (theta.getD ip.1 0) (phi.getD ip.1 0) ip.2.1 ip.2.2) := by
  induction P generalizing n with
  | nil => simp [expandOps]
  | cons pr rest ih =>
      obtain ⟨w1, w2⟩ := pr
      simp [expandOps, bsOps, hb, List.length_cons, List.range'_succ, ih]

/-- C5: for both meshes the scheduler's output is the coupling segment
`expandOps` followed by the final rotations; with
`beamsplitter = 'clements'` each selected pair is emitted as a
`Rotation(phi[n])` on its first channel immediately followed by a
`Beamsplitter(theta[n], 0)`, while any other (fused, default) convention
emits a single `Beamsplitter(theta[n], phi[n])` per pair. -/
theorem beamsplitter_convention (N : Nat) (hN : 2 ≤ N)
    (theta phi varphi : List Int) (mesh : Cfg)
    (hmesh : mesh = Cfg.str "rectangular" ∨ mesh = Cfg.str "triangular")
    (ht : N * (N - 1) / 2 ≤ theta.length) (hp : N * (N - 1) / 2 ≤ phi.length)
    (hv : varphi.length ≤ N) :
    ∃ fops : List Op,
      (∀ bs : Cfg, bs.isVariable = false →
        Interferometer theta phi varphi (List.range N) mesh bs
          = .ok (expandOps bs theta phi (meshPairs mesh (List.range N)) 0 ++ fops)) ∧
      (∀ (P : List (Nat × Nat)) (n : Nat),
        expandOps (Cfg.str "clements") theta phi P n
          = ((List.range' n P.length).zip P).flatMap
              (fun ip => [Op.rot (phi.getD ip.1 0) ip.2.1,
                Op.bs (theta.getD ip.1 0) 0 ip.2.1 ip.2.2])) ∧
      (∀ bs : Cfg, bs ≠ Cfg.str "clements" → ∀ (P : List (Nat × Nat)) (n : Nat),
        expandOps bs theta phi P n
          = ((List.range' n P.length).zip P).map
              (fun ip => Op.bs (theta.getD ip.1 0) (phi.getD ip.1 0)
                ip.2.1 ip.2.2)) := by
  have hmvar : mesh.isVariable = false := by
    rcases hmesh with h | h <;> simp [h, Cfg.isVariable]
  have hplen : (meshPairs mesh (List.range N)).length = N * (N - 1) / 2 := by
    rcases hmesh with h | h
    · rw [h, meshPairs, if_pos rfl, rectPairs_length, List.length_range]
    · rw [h, meshPairs, if_neg (by decide), if_pos rfl,
        triPairs_length _ (by simpa using hN), List.length_range]
  obtain ⟨fops, hfrun, hff, hft⟩ :=
    finalRots_ok varphi (List.range N) 0 (by simpa using hv)
  refine ⟨fops, ?_, expandOps_clements theta phi, fun bs hb => expandOps_fused bs hb theta phi⟩
  intro bs hbs
  have hemit := emitPairs_ok bs theta phi
    (meshPairs mesh (List.range N)) 0 (by omega) (by omega)
  rw [Interferometer]
  simp only [hbs, hmvar, Bool.false_eq_true, if_false, List.length_range]
  rw [if_neg (by omega), hemit, hfrun]

/-- C5 (witness): both conventions at `N = 2`, rectangular mesh. -/
theorem beamsplitter_convention_witness :
    ∃ fops : List Op,
      (∀ bs : Cfg, bs.isVariable = false →
        Interferometer [5] [7] [1, 2] (List.range 2) (Cfg.str "rectangular") bs
          = .ok (expandOps bs [5] [7]
              (meshPairs (Cfg.str "rectangular") (List.range 2)) 0 ++ fops)) ∧
      (∀ (P : List (Nat × Nat)) (n : Nat),
        expandOps (Cfg.str "clements") [5] [7] P n
          = ((List.range' n P.length).zip P).flatMap
              (fun ip => [Op.rot (([7] : List Int).getD ip.1 0) ip.2.1,
                Op.bs (([5] : List Int).getD ip.1 0) 0 ip.2.1 ip.2.2])) ∧
      (∀ bs : Cfg, bs ≠ Cfg.str "clements" → ∀ (P : List (Nat × Nat)) (n : Nat),
        expandOps bs [5] [7] P n
          = ((List.range' n P.length).zip P).map
              (fun ip => Op.bs (([5] : List Int).getD ip.1 0)
                (([7] : List Int).getD ip.1 0) ip.2.1 ip.2.2)) :=
  beamsplitter_convention 2 (by decide) [5] [7] [1, 2] (Cfg.str "rectangular")
    (Or.inl rfl) (by decide) (by decide) (by decide)

/-- C6: a symbolic `Variable` supplied as `beamsplitter`, or as `mesh`
(with any concrete string as `beamsplitter`), makes the scheduler fail
with the corresponding `QuantumFunctionError` before any schedule entry is
produced (the checks precede everything, including the `N = 1` special
case), for every wire list and all angle arrays. -/
theorem symbolic_config_rejected :
    (∀ (theta phi varphi : List Int) (w : List Nat) (mesh : Cfg) (i : Nat),
      Interferometer theta phi varphi w mesh (.symb i)
        = .error (.qfe beamsplitterMsg)) ∧
    (∀ (theta phi varphi : List Int) (w : List Nat) (s : String) (i : Nat),
      Interferometer theta phi varphi w (.symb i) (.str s)
        = .error (.qfe meshMsg)) := by
  constructor <;> intro theta phi varphi w x i <;>
    simp [Interferometer, Cfg.isVariable]

end Penny
